import Mathlib

/-!
Shallow embedding of the sidebar-translator text segmentation and
live-synchronization engine, together with its cross-context relay and
translation backend gate.  Definitions are translated from the TypeScript
sources:

* the content script (`textHash`, `assignId`, `extractTextBlocks`,
  `setupEventListeners`, `setupMutationObserver` / `flush`),
* the background relay (`chrome.runtime.onMessage` listener, `tabPorts`),
* the Chrome AI translator (`ChromeAITranslator.translate`,
  `TranslatorDownloadRequiredError`, `normalizeLangCode`).

JavaScript strings are modelled as Lean strings over BMP code points, so
`charCodeAt` coincides with the code point and `String.length` with the
UTF-16 length.  Unsigned 32-bit arithmetic is modelled as `Nat` arithmetic
modulo `2 ^ 32`.  Live computed-style facts (`isHidden`, flex/grid display)
are inputs of the DOM model: each element record carries the boolean the
code would read from the style system.
-/

namespace SidebarTranslator

/-! ### JavaScript string primitives

The JavaScript string operations the engine uses (`trim`, `toLowerCase`,
`split('-')`, `startsWith`) are modelled structurally over the character
list of a string, so that proofs can evaluate them on concrete inputs.
`trim` uses the ECMAScript whitespace set (restricted to its common
members). -/

/-- ECMAScript whitespace, as removed by `String.prototype.trim`. -/
def jsWhitespace (c : Char) : Bool :=
  let n := c.toNat
  n = 0x9 || n = 0xA || n = 0xB || n = 0xC || n = 0xD || n = 0x20 ||
  n = 0xA0 || n = 0x2028 || n = 0x2029 || n = 0xFEFF

/-- `String.prototype.trim`. -/
def jsTrim (s : String) : String :=
  ⟨((s.data.dropWhile jsWhitespace).reverse.dropWhile jsWhitespace).reverse⟩

/-- ASCII lowering of one character (`String.prototype.toLowerCase`,
restricted to the ASCII range that language codes use). -/
def lowerChar (c : Char) : Char :=
  if 65 ≤ c.toNat && c.toNat ≤ 90 then Char.ofNat (c.toNat + 32) else c

/-- `String.prototype.toLowerCase` (ASCII). -/
def jsToLower (s : String) : String :=
  ⟨s.data.map lowerChar⟩

/-- `String.prototype.split(sep)` for a one-character separator
(auxiliary on character lists). -/
def splitOnCharAux (sep : Char) : List Char → List Char → List String
  | [], acc => [⟨acc.reverse⟩]
  | c :: cs, acc =>
    if c = sep then ⟨acc.reverse⟩ :: splitOnCharAux sep cs []
    else splitOnCharAux sep cs (c :: acc)

/-- `String.prototype.split(sep)` for a one-character separator. -/
def splitOnChar (sep : Char) (s : String) : List String :=
  splitOnCharAux sep s.data []

/-- Whether `needle` occurs as a contiguous run of `hay`. -/
def containsSub : List Char → List Char → Bool
  | _, [] => true
  | [], _ :: _ => false
  | c :: cs, needle =>
    needle.isPrefixOf (c :: cs) || containsSub cs needle

/-! ### FNV-1a hashing and identifier formatting (`textHash`, `assignId`) -/

/-- One step of the FNV-1a loop: `h ^= c; h = Math.imul(h, 0x01000193)`,
kept in the unsigned 32-bit range. -/
def fnvStep (h c : Nat) : Nat :=
  ((h ^^^ c) * 0x01000193) % 2 ^ 32

/-- `textHash` accumulator after consuming the given code points, starting
from `0x811c9dc5` (the loop of the source `textHash`, before rendering). -/
def fnv1a (cs : List Char) : Nat :=
  cs.foldl (fun h c => fnvStep h c.toNat) 0x811c9dc5

/-- Digit character for base-36 rendering, as produced by JavaScript
`Number.prototype.toString(36)`: `0`–`9` then lowercase `a`–`z`. -/
def base36Digit (n : Nat) : Char :=
  if n < 10 then Char.ofNat (48 + n) else Char.ofNat (87 + n)

/-- Base-36 rendering of a natural number (auxiliary: digit list, least
significant first, with a structural fuel so concrete hashes evaluate;
the fuel `n` always suffices since a number has at most `n` digits). -/
def toBase36Aux : Nat → Nat → List Char
  | _, 0 => []
  | 0, _ + 1 => []
  | fuel + 1, n + 1 =>
    base36Digit ((n + 1) % 36) :: toBase36Aux fuel ((n + 1) / 36)

/-- Base-36 rendering of a natural number, mirroring `(h >>> 0).toString(36)`. -/
def toBase36 (n : Nat) : String :=
  if n = 0 then "0" else ⟨(toBase36Aux n n).reverse⟩

/-- `textHash`: FNV-1a 32-bit hash of the text, rendered unsigned in base 36. -/
def textHash (text : String) : String :=
  toBase36 (fnv1a text.data)

/-- Identifier format of `assignId`: no suffix for occurrence 0, `-n` for
the n-th later occurrence of the same hash. -/
def mkStId (h : String) (n : Nat) : String :=
  if n = 0 then "st-" ++ h else "st-" ++ h ++ "-" ++ toString n

/-! ### The meaningful-text filter (`isMeaningfulText`) -/

/-- Whether a code point falls in the character class
`[a-zA-Z0-9À-ɏ一-鿿぀-ヿ가-힯]`. -/
def meaningfulChar (c : Char) : Bool :=
  let n := c.toNat
  (48 ≤ n && n ≤ 57) || (65 ≤ n && n ≤ 90) || (97 ≤ n && n ≤ 122) ||
  (0xC0 ≤ n && n ≤ 0x24F) || (0x4E00 ≤ n && n ≤ 0x9FFF) ||
  (0x3040 ≤ n && n ≤ 0x30FF) || (0xAC00 ≤ n && n ≤ 0xD7AF)

/-- `isMeaningfulText`: rejects text shorter than 2 characters and text
without at least one letter/digit from the tested ranges. -/
def isMeaningfulText (text : String) : Bool :=
  if text.length < 2 then false
  else text.data.any meaningfulChar

/-! ### Language-code normalization (`normalizeLangCode`) -/

/-- `normalizeLangCode`: `zh-*` variants are preserved, every other code is
lowercased and truncated at the first `-`. -/
def normalizeLangCode (code : String) : String :=
  if ("zh-".data).isPrefixOf code.data then code
  else (splitOnChar (Char.ofNat 45) (jsToLower code)).headD ""

/-! ### The Chrome AI translation gate (`ChromeAITranslator.translate`)

`Translator.availability` and `Translator.create` are browser calls; their
outcomes are inputs of the model.  The model covers the control flow of
`translate` from the normalization of an explicit language pair up to the
caching of a created translator, the part the error-handling claims are
about. -/

/-- Result of `Translator.availability` for the normalized pair. -/
inductive Availability where
  | available | downloadable | downloading | unsupported
  deriving Repr, DecidableEq

/-- Outcome of the browser call `Translator.create` when attempted. -/
inductive CreateOutcome where
  | success
  | failNotAllowed                -- NotAllowedError / "user gesture" message
  | failNotSupported              -- NotSupportedError / "Unable to create translator"
  | failOther (msg : String)
  deriving Repr, DecidableEq

/-- How `translate` resolves, before the per-text translation loop. -/
inductive TranslateResult where
  | sameLangOriginals             -- source = target: original texts returned
  | proceed (fromCache : Bool)    -- a translator is at hand, translation proceeds
  | errDownloadRequired (src tgt : String)  -- TranslatorDownloadRequiredError
  | err (msg : String)            -- plain Error with the given message
  deriving Repr, DecidableEq

/-- Message of `TranslatorDownloadRequiredError`. -/
def downloadRequiredMessage (src tgt : String) : String :=
  "The translation model for " ++ src ++ " → " ++ tgt ++
  " needs to be downloaded. Click the translate button to start the download."

/-- Message thrown when `Translator.availability` reports `unsupported`. -/
def msgUnsupportedAvailability (src tgt : String) : String :=
  "Chrome AI Translator: language pair " ++ src ++ "→" ++ tgt ++ " is not available."

/-- Message thrown when `Translator.create` fails with `NotSupportedError`. -/
def msgNotSupportedCreate (src tgt : String) : String :=
  "Chrome AI Translator: the language pair " ++ src ++ "→" ++ tgt ++
  " is not supported. Please try a different source or target language."

/-- Message thrown when `Translator.create` fails in any other way. -/
def msgOtherCreate (msg : String) : String :=
  "Chrome AI Translator error: " ++ msg ++
  ". Try refreshing the page and clicking translate again."

/-- The `Translator.create` attempt of `translate`, with its `catch` clause. -/
def createStep (src tgt : String) : CreateOutcome → TranslateResult
  | .success => .proceed false
  | .failNotAllowed => .errDownloadRequired src tgt
  | .failNotSupported => .err (msgNotSupportedCreate src tgt)
  | .failOther m => .err (msgOtherCreate m)

/-- Trace of one `translate` call: how it resolves, and whether
`Translator.create` (the step that starts a model download) was reached. -/
structure TranslateTrace where
  result : TranslateResult
  createAttempted : Bool
  deriving Repr, DecidableEq

/-- Control flow of `ChromeAITranslator.translate` for an explicit (non-auto)
language pair: normalize both codes, return originals when they agree, reuse
a cached translator when present, otherwise consult availability — throwing
on `unsupported`, throwing `TranslatorDownloadRequiredError` when a download
would be needed without a user gesture — and only then attempt creation. -/
def chromeAITranslate (cached : Bool) (avail : Availability)
    (create : CreateOutcome) (sourceLang targetLang : String)
    (hasUserGesture : Bool) : TranslateTrace :=
  let src := normalizeLangCode sourceLang
  let tgt := normalizeLangCode targetLang
  if src = tgt then ⟨.sameLangOriginals, false⟩
  else if cached then ⟨.proceed true, false⟩
  else match avail with
    | .unsupported => ⟨.err (msgUnsupportedAvailability src tgt), false⟩
    | .downloadable =>
        if !hasUserGesture then ⟨.errDownloadRequired src tgt, false⟩
        else ⟨createStep src tgt create, true⟩
    | .downloading =>
        if !hasUserGesture then ⟨.errDownloadRequired src tgt, false⟩
        else ⟨createStep src tgt create, true⟩
    | .available => ⟨createStep src tgt create, true⟩

/-! ### The background relay (`chrome.runtime.onMessage` listener)

Inbound runtime messages are untrusted values.  A raw message is modelled by
whether it is an object (a non-object such as `null` makes the listener's
`message.type` access throw), the value of its `type` property when that is
a string, and whether the rest of its shape matches the tagged union
`Message` for that type (the listener never reads this last component). -/

structure RawMsg where
  isObject : Bool
  ty : Option String
  wellFormed : Bool
  deriving Repr, DecidableEq

/-- The closed message set of `messages.ts` (`KNOWN_MESSAGE_TYPES`). -/
def knownMessageTypes : List String :=
  ["EXTRACT_TEXT", "PAGE_TEXT", "NEW_TEXT_BLOCKS", "TEXT_UPDATED",
   "ELEMENT_HOVERED", "ELEMENT_CLICKED", "HIGHLIGHT_ELEMENT",
   "UNHIGHLIGHT_ELEMENT", "SCROLL_TO_ELEMENT", "SET_MODE", "MODE_CHANGED",
   "BLOCK_INTERACTIVE_CHANGED", "PAGE_REFRESHED", "SIDEPANEL_READY"]

/-- `isMessage` of `messages.ts`: an object whose `type` is a string in the
closed set.  A fully valid shape additionally has the fields of that
variant. -/
def isValidMessageShape (m : RawMsg) : Bool :=
  m.isObject &&
  (match m.ty with
   | some t => knownMessageTypes.contains t
   | none => false) &&
  m.wellFormed

/-- One delivery the relay listener performs. -/
inductive Delivery where
  | respondNull                       -- sendResponse(null)
  | forwardExtract (tab : Nat)        -- tabs.sendMessage(activeTab, m) with response relay
  | postPort (port : Nat) (m : RawMsg)  -- tabPorts.get(tab)!.postMessage(m)
  | sendActiveTab (tab : Nat) (m : RawMsg)  -- tabs.sendMessage(activeTab, m)
  deriving Repr, DecidableEq

/-- Lookup in the `tabPorts` map (tab id → port id). -/
def lookupPort : List (Nat × Nat) → Nat → Option Nat
  | [], _ => none
  | (t, p) :: rest, tab => if t = tab then some p else lookupPort rest tab

/-- The relay's `chrome.runtime.onMessage` listener.  `tabPorts` is the
tab → port table built by the `onConnect` listener, `activeTab` the result
`chrome.tabs.query({active: true, currentWindow: true})` would produce at
dispatch time, and `senderTab` is `sender.tab?.id`.  A non-object message
makes the listener body throw (`Except.error`); otherwise the listener
compares `message.type` against the handled literals in source order and
falls through to a silent drop. -/
def relayOnMessage (tabPorts : List (Nat × Nat)) (activeTab : Option Nat)
    (senderTab : Option Nat) (m : RawMsg) : Except Unit (List Delivery) :=
  if !m.isObject then .error ()
  else if m.ty = some "EXTRACT_TEXT" then
    .ok (match activeTab with
         | none => [.respondNull]
         | some t => [.forwardExtract t])
  else if m.ty = some "ELEMENT_HOVERED" ∨ m.ty = some "ELEMENT_CLICKED" ∨
          m.ty = some "NEW_TEXT_BLOCKS" ∨ m.ty = some "TEXT_UPDATED" then
    .ok (match senderTab with
         | some s =>
           match lookupPort tabPorts s with
           | some p => [.postPort p m]
           | none => []
         | none => [])
  else if m.ty = some "HIGHLIGHT_ELEMENT" ∨ m.ty = some "UNHIGHLIGHT_ELEMENT" ∨
          m.ty = some "SCROLL_TO_ELEMENT" ∨ m.ty = some "SET_MODE" then
    .ok (match activeTab with
         | some t => [.sendActiveTab t m]
         | none => [])
  else if m.ty = some "PAGE_TEXT" then
    .ok (match senderTab with
         | some s =>
           match lookupPort tabPorts s with
           | some p => [.postPort p m]
           | none => []
         | none => [])
  else .ok []

/-- The message types the relay listener dispatches on. -/
def relayHandledTypes : List String :=
  ["EXTRACT_TEXT", "ELEMENT_HOVERED", "ELEMENT_CLICKED", "NEW_TEXT_BLOCKS",
   "TEXT_UPDATED", "HIGHLIGHT_ELEMENT", "UNHIGHLIGHT_ELEMENT",
   "SCROLL_TO_ELEMENT", "SET_MODE", "PAGE_TEXT"]

/-! ### The hover interaction machine (`setupEventListeners`)

The `mouseover`/`mouseout` handlers and the hover debounce timer form a
small state machine.  An `over id` event stands for a `mouseover` whose
target resolves (via `closest`/ancestor walk on the identifier attribute)
to the block identifier `id` (or to none); an `out found stillInside` event
stands for a `mouseout` where `found` says whether such an ancestor exists
and `stillInside` whether `relatedTarget` is still contained in it; `fire`
is the debounce timer callback. -/

inductive HoverEvent where
  | over (id : Option String)
  | out (found : Bool) (stillInside : Bool)
  | fire
  deriving Repr, DecidableEq

structure HoverState where
  currentHighlightId : Option String
  /-- The pending debounce timer with the identifier its callback captured. -/
  timer : Option (Option String)
  /-- The element currently carrying the highlight class, by identifier. -/
  highlighted : Option String
  deriving Repr, DecidableEq

def initialHoverState : HoverState := ⟨none, none, none⟩

/-- A message to the sidebar: `ELEMENT_HOVERED` with the given payload. -/
inductive HoverMsg where
  | elementHovered (id : Option String)
  deriving Repr, DecidableEq

/-- One step of the hover machine; returns the messages sent during the
step.  `mode` is `translationMode` (both handlers return early when it is
off). -/
def hoverStep (mode : Bool) (s : HoverState) : HoverEvent → HoverState × List HoverMsg
  | .over id =>
    if !mode then (s, [])
    else if id = s.currentHighlightId then (s, [])
    else
      -- clear any pending timer, highlight locally at once, debounce the message
      ({ currentHighlightId := id, timer := some id, highlighted := id }, [])
  | .out found stillInside =>
    if !mode then (s, [])
    else if !found then (s, [])
    else if stillInside then (s, [])
    else
      ({ currentHighlightId := none, timer := none, highlighted := none },
       [.elementHovered none])
  | .fire =>
    match s.timer with
    | some payload => ({ s with timer := none }, [.elementHovered payload])
    | none => (s, [])

/-- Run the hover machine over a list of events, collecting messages. -/
def hoverRun (mode : Bool) (s : HoverState) :
    List HoverEvent → HoverState × List HoverMsg
  | [] => (s, [])
  | e :: es =>
    let (s', ms) := hoverStep mode s e
    let (s'', ms') := hoverRun mode s' es
    (s'', ms ++ ms')

/-- Whether a message carries a block identifier (is not `hovered: none`). -/
def carriesId : HoverMsg → Bool
  | .elementHovered (some _) => true
  | .elementHovered none => false

/-! ### The document model

A document is the `<body>` element's tree.  Each element carries the fields
the segmentation engine reads: its tag name (uppercase, as `tagName`), the
identifier attribute `data-st-id`, the `role` and `aria-hidden` attributes,
the outcome `hidden` the style-dependent `isHidden` predicate would give
for it, and whether its computed `display` is a flex/grid variant (read by
`getBlockParent` for the element's children).  Elements are addressed by
their child-index paths from the body; the body itself has path `[]`. -/

structure ElemData where
  tag : String
  stId : Option String
  role : Option String
  ariaHidden : Bool
  hidden : Bool
  flexGrid : Bool
  deriving Repr, DecidableEq

inductive DomNode where
  | elem (d : ElemData) (children : List DomNode)
  | text (s : String)
  deriving Repr

/-- `BLOCK_LEVEL_TAGS` of the content script. -/
def BLOCK_LEVEL_TAGS : List String :=
  ["P", "H1", "H2", "H3", "H4", "H5", "H6",
   "LI", "BLOCKQUOTE", "TD", "TH", "CAPTION",
   "FIGCAPTION", "SUMMARY", "DT", "DD",
   "ARTICLE", "SECTION", "HEADER", "FOOTER", "MAIN", "ASIDE"]

/-- `SKIP_TAGS` of the content script. -/
def SKIP_TAGS : List String :=
  ["SCRIPT", "STYLE", "NOSCRIPT", "TEXTAREA", "SELECT", "OPTION",
   "CODE", "PRE", "BUTTON", "INPUT", "SVG", "MATH"]

/-- `shouldSkip` on an element: skip tags and `aria-hidden="true"`. -/
def shouldSkipEl (d : ElemData) : Bool :=
  SKIP_TAGS.contains d.tag || d.ariaHidden

/-- Replace the element at index `i` (out-of-range: unchanged). -/
def listModify : List α → Nat → (α → α) → List α
  | [], _, _ => []
  | x :: xs, 0, f => f x :: xs
  | x :: xs, n + 1, f => x :: listModify xs n f

/-- Write the identifier attribute on the element at the given path
(`el.setAttribute(ST_ATTR, id)`). -/
def setStId (v : String) : List Nat → DomNode → DomNode
  | [], .elem d cs => .elem { d with stId := some v } cs
  | [], .text s => .text s
  | i :: p, .elem d cs => .elem d (listModify cs i (setStId v p))
  | _ :: _, .text s => .text s

/-- Read the identifier attribute of the element at the given path. -/
def getStId : List Nat → DomNode → Option String
  | [], .elem d _ => d.stId
  | [], .text _ => none
  | i :: p, .elem _ cs =>
    match cs.get? i with
    | some c => getStId p c
    | none => none
  | _ :: _, .text _ => none

mutual

/-- Remove `data-st-id` from every element
(`document.querySelectorAll('[data-st-id]') … removeAttribute`). -/
def stripIds : DomNode → DomNode
  | .elem d cs => .elem { d with stId := none } (stripIdsList cs)
  | .text s => .text s

def stripIdsList : List DomNode → List DomNode
  | [] => []
  | c :: cs => stripIds c :: stripIdsList cs

end

mutual

/-- Whether no element of the tree carries an identifier attribute. -/
def noIds : DomNode → Bool
  | .elem d cs => d.stId = none && noIdsList cs
  | .text _ => true

def noIdsList : List DomNode → Bool
  | [] => true
  | c :: cs => noIds c && noIdsList cs

end

/-- The ancestor context of a text leaf: every proper element ancestor
strictly below the body, nearest first, with its path. -/
abbrev AncPath := List (List Nat × ElemData)

mutual

/-- All text leaves under a node, in document (pre-order) traversal order
(the `TreeWalker` with `SHOW_TEXT`), each with its ancestor context.  `anc`
is the context of the node itself; an element pushes itself onto the
context of its children. -/
def textLeaves (anc : AncPath) (path : List Nat) :
    DomNode → List (AncPath × String)
  | .text s => [(anc, s)]
  | .elem d cs => textLeavesList ((path, d) :: anc) path 0 cs

def textLeavesList (anc : AncPath) (path : List Nat) :
    Nat → List DomNode → List (AncPath × String)
  | _, [] => []
  | i, c :: cs =>
    textLeaves anc (path ++ [i]) c ++ textLeavesList anc path (i + 1) cs

end

/-- Where a text leaf's texts are grouped: the block parent element with the
data needed later (its proper ancestors below the body, for
`getPageSection`), or the body itself. -/
inductive BlockRef where
  | body
  | el (path : List Nat) (d : ElemData) (chain : List ElemData)
  deriving Repr, DecidableEq

/-- `getBlockParent`'s upward walk over the strictly-below-body ancestors:
the first ancestor that is a block-level tag or `role="article"`, or whose
direct parent (when not the body) has flex/grid display. -/
def findBlockParent : AncPath → Option BlockRef
  | [] => none
  | (p, d) :: rest =>
    if BLOCK_LEVEL_TAGS.contains d.tag || d.role = some "article" then
      some (.el p d (rest.map Prod.snd))
    else
      match rest with
      | (_, pd) :: _ =>
        if pd.flexGrid then some (.el p d (rest.map Prod.snd))
        else findBlockParent rest
      | [] => none

/-- `getBlockParent`: the walk above, falling back to the immediate parent
element (possibly the body). -/
def blockParentOf (anc : AncPath) : BlockRef :=
  match findBlockParent anc with
  | some r => r
  | none =>
    match anc with
    | (p, d) :: rest => .el p d (rest.map Prod.snd)
    | [] => .body

/-- Whether the block parent is hidden (`isHidden(blockEl)`). -/
def blockRefHidden (bodyD : ElemData) : BlockRef → Bool
  | .body => bodyD.hidden
  | .el _ d _ => d.hidden

/-- The `TreeWalker` accept filter together with the per-leaf checks of the
walker loop: ancestor skip-tag/aria-hidden rejection, trimming, the
meaningful-text filter, hidden parent, then block-parent resolution and its
hidden check.  Returns the block parent and the trimmed leaf text when the
leaf is retained. -/
def parentElemHidden (bodyD : ElemData) (anc : AncPath) : Bool :=
  match anc.head? with
  | some (_, d) => d.hidden
  | none => bodyD.hidden

def leafEntry (bodyD : ElemData) (anc : AncPath) (s : String) :
    Option (BlockRef × String) :=
  if anc.any (fun pe => shouldSkipEl pe.2) then none
  else if jsTrim s = "" then none
  else if !isMeaningfulText (jsTrim s) then none
  else if parentElemHidden bodyD anc then none
  else if blockRefHidden bodyD (blockParentOf anc) then none
  else if !isMeaningfulText (jsTrim s) then none
  else some (blockParentOf anc, jsTrim s)

/-- The path of a block parent (the body has path `[]`). -/
def blockRefPath : BlockRef → List Nat
  | .body => []
  | .el p _ _ => p

/-- Key equality for the `blockMap`: DOM element identity, which under the
path addressing is path equality. -/
def sameBlockRef (a b : BlockRef) : Bool :=
  blockRefPath a = blockRefPath b

/-- `blockMap` accumulation: `texts = map.get(el) ?? []; texts.push(text);
map.set(el, texts)` — insertion-ordered, appending to an existing key's
list in place. -/
def insertLeaf (m : List (BlockRef × List String)) (k : BlockRef)
    (t : String) : List (BlockRef × List String) :=
  match m with
  | [] => [(k, [t])]
  | (k', ts) :: rest =>
    if sameBlockRef k' k then (k', ts ++ [t]) :: rest
    else (k', ts) :: insertLeaf rest k t

/-- `getPageSection`'s role table. -/
def roleSection : String → Option String
  | "banner" => some "header"
  | "navigation" => some "nav"
  | "main" => some "main"
  | "complementary" => some "aside"
  | "contentinfo" => some "footer"
  | "article" => some "article"
  | _ => none

/-- `getPageSection`'s semantic-tag table. -/
def tagSection : String → Option String
  | "HEADER" => some "header"
  | "NAV" => some "nav"
  | "MAIN" => some "main"
  | "ASIDE" => some "aside"
  | "FOOTER" => some "footer"
  | "ARTICLE" => some "article"
  | "SECTION" => some "section"
  | _ => none

/-- The upward tag walk of `getPageSection` (from the element itself, body
excluded). -/
def tagWalk : List ElemData → String
  | [] => "other"
  | d :: rest =>
    match tagSection d.tag with
    | some s => s
    | none => tagWalk rest

/-- `getPageSection` on a block parent. -/
def pageSectionOf (bodyD : ElemData) : BlockRef → String
  | .body =>
    (match bodyD.role with
     | some r =>
       match roleSection r with
       | some s => some s
       | none => none
     | none => none).getD "other"
  | .el _ d chain =>
    match d.role.bind roleSection with
    | some s => s
    | none => tagWalk (d :: chain)

/-- One extracted block. -/
structure TextBlock where
  id : String
  text : String
  sectionName : String
  deriving Repr, DecidableEq

/-- Association-list lookup for the `hashCounts` table. -/
def lookupCount : List (String × Nat) → String → Option Nat
  | [], _ => none
  | (k, v) :: rest, h => if k = h then some v else lookupCount rest h

/-- `hashCounts.set h n` (replace in place or append). -/
def setCount : List (String × Nat) → String → Nat → List (String × Nat)
  | [], h, n => [(h, n)]
  | (k, v) :: rest, h, n =>
    if k = h then (k, n) :: rest else (k, v) :: setCount rest h n

/-- Identifier writes performed so far during a pass, keyed by element
path. -/
def lookupWrite : List (List Nat × String) → List Nat → Option String
  | [], _ => none
  | (p, v) :: rest, q => if p = q then some v else lookupWrite rest q

/-- The identifier attribute the block parent carried when the walk read
it. -/
def blockRefStId (bodyD : ElemData) : BlockRef → Option String
  | .body => bodyD.stId
  | .el _ d _ => d.stId

/-- State threaded through the block-assembly loop: the `hashCounts` table
and the identifier writes performed so far in this pass. -/
structure AssignState where
  counts : List (String × Nat)
  writes : List (List Nat × String)
  deriving Repr, DecidableEq

/-- `assignId(el, text)`: reuse the identifier the element already carries
(an earlier write of this pass, or its attribute), otherwise derive one
from the text hash and the epoch-local occurrence counter and write it. -/
def assignId (bodyD : ElemData) (st : AssignState) (ref : BlockRef)
    (text : String) : String × AssignState :=
  match (lookupWrite st.writes (blockRefPath ref)).orElse
      (fun _ => blockRefStId bodyD ref) with
  | some id => (id, st)
  | none =>
    let h := textHash text
    let n := (lookupCount st.counts h).getD 0
    let id := mkStId h n
    (id, ⟨setCount st.counts h (n + 1),
          st.writes ++ [(blockRefPath ref, id)]⟩)

/-- The final loop of `extractTextBlocks`: join each block's texts with
spaces, re-check meaningfulness, assign the identifier and classify the
section. -/
def buildBlocks (bodyD : ElemData) (st : AssignState) :
    List (BlockRef × List String) → List TextBlock × AssignState
  | [] => ([], st)
  | (ref, texts) :: rest =>
    let t := jsTrim (String.intercalate " " texts)
    if !isMeaningfulText t then buildBlocks bodyD st rest
    else
      let idSt := assignId bodyD st ref t
      let bs := buildBlocks bodyD idSt.2 rest
      (⟨idSt.1, t, pageSectionOf bodyD ref⟩ :: bs.1, bs.2)

/-- Apply the identifier writes of a pass to the document. -/
def applyWrites (ws : List (List Nat × String)) (doc : DomNode) : DomNode :=
  ws.foldl (fun t pv => setStId pv.2 pv.1 t) doc

/-- Result of one segmentation pass: the blocks, the document afterwards,
and the `hashCounts` table afterwards. -/
structure ExtractResult where
  blocks : List TextBlock
  doc : DomNode
  counts : List (String × Nat)
  deriving Repr

/-- The grouping walk and block assembly shared by both modes of
`extractTextBlocks`, on a document whose body data is `bodyD`: collect the
retained text leaves, group them by block parent, then assemble blocks. -/
def segmentWalk (bodyD : ElemData) (leaves : List (AncPath × String))
    (counts : List (String × Nat)) : List TextBlock × AssignState :=
  let entries := leaves.filterMap (fun ls => leafEntry bodyD ls.1 ls.2)
  let m := entries.foldl (fun acc e => insertLeaf acc e.1 e.2) []
  buildBlocks bodyD ⟨counts, []⟩ m

/-- `extractTextBlocks(document.body)`: strip every identifier, reset the
occurrence table, walk the whole body. -/
def extractFull (doc : DomNode) : ExtractResult :=
  match stripIds doc with
  | .text s => ⟨[], .text s, []⟩
  | .elem d cs =>
    let (blocks, st) := segmentWalk d (textLeavesList [] [] 0 cs) []
    ⟨blocks, applyWrites st.writes (.elem d cs), st.counts⟩

/-- The element at a path, together with the ancestor context accumulated on
the way down (strictly below the body, nearest first). -/
def nodeAt (anc : AncPath) (path : List Nat) (sofar : List Nat) :
    DomNode → Option (AncPath × DomNode)
  | n =>
    match path with
    | [] => some (anc, n)
    | i :: p =>
      match n with
      | .text _ => none
      | .elem d cs =>
        match cs.get? i with
        | some c =>
          nodeAt (if sofar = [] then anc else (sofar, d) :: anc)
            p (sofar ++ [i]) c
        | none => none

/-- `extractTextBlocks(root)` for a partial pass rooted at the element at
`rootPath` (a non-body element): the same grouping walk without stripping
identifiers or resetting the occurrence table. -/
def extractPartial (doc : DomNode) (counts : List (String × Nat))
    (rootPath : List Nat) : ExtractResult :=
  match doc with
  | .text s => ⟨[], .text s, counts⟩
  | .elem bodyD _ =>
    match nodeAt [] rootPath [] doc with
    | none => ⟨[], doc, counts⟩
    | some (anc, root) =>
      let (blocks, st) :=
        segmentWalk bodyD (textLeaves anc rootPath root) counts
      ⟨blocks, applyWrites st.writes doc, st.counts⟩

/-- `extractTextBlocks`: a full pass when the root is the body, a partial
pass otherwise. -/
def extractTextBlocks (doc : DomNode) (counts : List (String × Nat))
    (rootPath : List Nat) : ExtractResult :=
  if rootPath = [] then extractFull doc
  else extractPartial doc counts rootPath

/-! ### The change observer (`setupMutationObserver`) and its flush

`pendingAdded` is a `Set<Element>` (insertion-ordered, duplicate-free,
modelled by element paths) and `pendingUpdated` a `Map<string, string>`
(insertion-ordered, `set` replaces in place). -/

/-- `Set.add` on element paths. -/
def setAdd (l : List (List Nat)) (p : List Nat) : List (List Nat) :=
  if l.contains p then l else l ++ [p]

/-- `Map.set`: replace an existing key's value in place, else append. -/
def mapSet : List (String × String) → String → String → List (String × String)
  | [], k, v => [(k, v)]
  | (k', v') :: rest, k, v =>
    if k' = k then (k', v) :: rest else (k', v') :: mapSet rest k v

structure PendingState where
  pendingAdded : List (List Nat)
  pendingUpdated : List (String × String)
  deriving Repr, DecidableEq

def initialPending : PendingState := ⟨[], []⟩

/-- A node of a `childList` mutation record's `addedNodes`. -/
inductive AddedNode where
  /-- An added element: its path and its HTML `id` attribute (checked
  against the engine's own `st-styles` injection). -/
  | element (path : List Nat) (htmlId : Option String)
  /-- An added text node: whether its `textContent` trims non-empty, and
  its parent element's path when it has one. -/
  | textNode (nonEmpty : Bool) (parentPath : Option (List Nat))
  deriving Repr, DecidableEq

/-- What the `characterData` branch reads from `record.target.parentElement`:
its identifier attribute and its trimmed `textContent`; the identifier
attributes of its own proper ancestors (nearest first) are carried along
only so claims about "the nearest identified ancestor" can be stated. -/
structure CharDataParent where
  stId : Option String
  trimmedText : String
  ancestorStIds : List (Option String)
  deriving Repr, DecidableEq

/-- A mutation record as classified by the observer callback. -/
inductive MutRecord where
  | attributes (attrName : String)
  | childList (added : List AddedNode)
  | charData (parent : Option CharDataParent)
  deriving Repr, DecidableEq

/-- Processing of one `childList` record's added nodes. -/
def observeAdded (st : PendingState) : List AddedNode → PendingState
  | [] => st
  | .element path htmlId :: rest =>
    if htmlId = some "st-styles" then observeAdded st rest
    else observeAdded { st with pendingAdded := setAdd st.pendingAdded path } rest
  | .textNode nonEmpty parentPath :: rest =>
    if nonEmpty then
      match parentPath with
      | some p =>
        observeAdded { st with pendingAdded := setAdd st.pendingAdded p } rest
      | none => observeAdded st rest
    else observeAdded st rest

/-- Processing of one mutation record by the observer callback. -/
def observeRecord (st : PendingState) : MutRecord → PendingState
  | .attributes attrName =>
    if attrName = "data-st-id" then st else st
  | .childList added => observeAdded st added
  | .charData parent =>
    match parent with
    | none => st
    | some p =>
      match p.stId with
      | some id =>
        if p.trimmedText ≠ "" then
          { st with pendingUpdated := mapSet st.pendingUpdated id p.trimmedText }
        else st
      | none => st

/-- Processing of a batch of mutation records, in delivery order. -/
def observeRecords (st : PendingState) (records : List MutRecord) : PendingState :=
  records.foldl observeRecord st

/-- "The nearest identified ancestor" of the mutated node, as the spec
phrases it: the first carrier of an identifier along the parent chain. -/
def nearestIdentifiedAncestor (p : CharDataParent) : Option String :=
  (p.stId :: p.ancestorStIds).foldl (fun acc o => acc.orElse (fun _ => o)) none

/-- A message sent by the content script during a flush. -/
inductive ContentMsg where
  | newTextBlocks (blocks : List TextBlock)
  | textUpdated (id : String) (text : String)
  deriving Repr, DecidableEq

/-- Result of one debounce flush. -/
structure FlushResult where
  msgs : List ContentMsg
  doc : DomNode
  counts : List (String × Nat)
  pending : PendingState
  deriving Repr

/-- The `flush` function: re-segment each pending subtree (partial passes
threading the document and the occurrence table), send one `NEW_TEXT_BLOCKS`
message when any blocks came out, then one `TEXT_UPDATED` message per
pending update entry; clear both pending sets. -/
def flushExtract (doc : DomNode) (counts : List (String × Nat))
    (roots : List (List Nat)) : List TextBlock × DomNode × List (String × Nat) :=
  roots.foldl
    (fun acc root =>
      let r := extractTextBlocks acc.2.1 acc.2.2 root
      (acc.1 ++ r.blocks, r.doc, r.counts))
    (([] : List TextBlock), doc, counts)

def flush (doc : DomNode) (counts : List (String × Nat))
    (st : PendingState) : FlushResult :=
  let ex := flushExtract doc counts st.pendingAdded
  let step1 :=
    if st.pendingAdded.length > 0 then
      (if ex.1.length > 0 then [ContentMsg.newTextBlocks ex.1] else [],
       ex.2.1, ex.2.2)
    else ([], doc, counts)
  let msgs2 : List ContentMsg :=
    if st.pendingUpdated.length > 0 then
      st.pendingUpdated.foldl (fun acc e => acc ++ [.textUpdated e.1 e.2]) []
    else []
  ⟨step1.1 ++ msgs2, step1.2.1, step1.2.2, initialPending⟩

/-- Number of texts in `l` whose content hash is `h` (used to state the
per-hash occurrence counter of a pass). -/
def hashOccurrences (l : List String) (h : String) : Nat :=
  (l.filter (fun t => textHash t = h)).length

/-- The paths of the `blockMap` keys. -/
def pathsOf (m : List (BlockRef × List String)) : List (List Nat) :=
  m.map (fun e => blockRefPath e.1)

/-! ### Concrete example inputs used by witnesses and counterexamples -/

/-- A plain visible `<body>`. -/
def exBody : ElemData := ⟨"BODY", none, none, false, false, false⟩

/-- A plain visible `<p>`. -/
def exP : ElemData := ⟨"P", none, none, false, false, false⟩

/-- A plain visible `<h1>`. -/
def exH1 : ElemData := ⟨"H1", none, none, false, false, false⟩

/-- A `<p>` already carrying the identifier `st-abc` from an earlier pass. -/
def exPIded : ElemData := ⟨"P", some "st-abc", none, false, false, false⟩

/-- The spec's scenario document: `<h1>Title</h1><p>Menu</p><p>Menu</p>`. -/
def exDocMenu : DomNode :=
  .elem exBody
    [.elem exH1 [.text "Title"], .elem exP [.text "Menu"],
     .elem exP [.text "Menu"]]

/-- A document whose single paragraph is already identified. -/
def exDocIded : DomNode :=
  .elem exBody [.elem exPIded [.text "Hello world"]]

/-- Invariant of the hover machine between timer firings: the pending
timer, when present, captured the current highlight identifier; when no
timer is pending nothing is highlighted. -/
def hoverInv (s : HoverState) : Prop :=
  s.timer = some s.currentHighlightId ∨
  (s.timer = none ∧ s.currentHighlightId = none)

/-! ## Theorems -/

/-! ### C8 — the translation download gate -/

/-- C8 (counterexample): for the unsupported language pair `it → xx`
(availability reported `unsupported`), `translate` throws the error
"Chrome AI Translator: language pair it→xx is not available." — a message
that does not ask the user to pick different languages (it contains no
occurrence of the word "different"), contrary to the claim's description
of the unsupported-pair failure. -/
theorem translate_unsupported_message_counterexample :
    chromeAITranslate false .unsupported .success "it" "xx" true =
      ⟨.err "Chrome AI Translator: language pair it→xx is not available.", false⟩ ∧
    containsSub
      "Chrome AI Translator: language pair it→xx is not available.".data
      "different".data = false := by
  constructor
  · decide
  · decide

/-- C8 (amended): a translation request for a non-cached pair of distinct
normalized languages whose availability is `downloadable` or `downloading`,
made without a user gesture, resolves to `TranslatorDownloadRequiredError`
without reaching `Translator.create` (no download is attempted); a pair
reported `unsupported` fails terminally — with the same plain error naming
the pair as not available whether or not a gesture is present, never with a
download-required error — and when creation itself fails with
`NotSupportedError` the error asks the user to try a different source or
target language. -/
theorem translate_download_gate_spec (cr : CreateOutcome) (g : Bool)
    (sourceLang targetLang : String)
    (hne : normalizeLangCode sourceLang ≠ normalizeLangCode targetLang) :
    (chromeAITranslate false .downloadable cr sourceLang targetLang false =
      ⟨.errDownloadRequired (normalizeLangCode sourceLang)
        (normalizeLangCode targetLang), false⟩) ∧
    (chromeAITranslate false .downloading cr sourceLang targetLang false =
      ⟨.errDownloadRequired (normalizeLangCode sourceLang)
        (normalizeLangCode targetLang), false⟩) ∧
    (chromeAITranslate false .unsupported cr sourceLang targetLang g =
      ⟨.err (msgUnsupportedAvailability (normalizeLangCode sourceLang)
        (normalizeLangCode targetLang)), false⟩) ∧
    (chromeAITranslate false .downloadable .failNotSupported
        sourceLang targetLang true =
      ⟨.err (msgNotSupportedCreate (normalizeLangCode sourceLang)
        (normalizeLangCode targetLang)), true⟩) ∧
    containsSub (msgNotSupportedCreate "it" "xx").data
      "Please try a different source or target language".data = true := by
  refine ⟨?_, ?_, ?_, ?_, ?_⟩
  · simp [chromeAITranslate, hne]
  · simp [chromeAITranslate, hne]
  · simp [chromeAITranslate, hne]
  · simp [chromeAITranslate, createStep, hne]
  · decide

/-- Witness for the download-gate theorem at the concrete pair `it → fr`. -/
theorem translate_download_gate_spec_witness :
    (chromeAITranslate false .downloadable .success "it" "fr" false =
      ⟨.errDownloadRequired (normalizeLangCode "it") (normalizeLangCode "fr"),
       false⟩) ∧
    (chromeAITranslate false .downloading .success "it" "fr" false =
      ⟨.errDownloadRequired (normalizeLangCode "it") (normalizeLangCode "fr"),
       false⟩) ∧
    (chromeAITranslate false .unsupported .success "it" "fr" true =
      ⟨.err (msgUnsupportedAvailability (normalizeLangCode "it")
        (normalizeLangCode "fr")), false⟩) ∧
    (chromeAITranslate false .downloadable .failNotSupported "it" "fr" true =
      ⟨.err (msgNotSupportedCreate (normalizeLangCode "it")
        (normalizeLangCode "fr")), true⟩) ∧
    containsSub (msgNotSupportedCreate "it" "xx").data
      "Please try a different source or target language".data = true := by
  have h := translate_download_gate_spec .success true "it" "fr" (by decide)
  exact ⟨h.1, h.2.1, h.2.2.1,
    (translate_download_gate_spec .failNotSupported true "it" "fr"
      (by decide)).2.2.2.1,
    h.2.2.2.2⟩

/-! ### C5 — relay routing by originating tab -/

/-- C5: a document-sourced event (`ELEMENT_HOVERED`, `ELEMENT_CLICKED`,
`NEW_TEXT_BLOCKS`, `TEXT_UPDATED`) is delivered by the relay to the channel
bound to the event's originating tab (`sender.tab.id`), regardless of which
tab is currently focused, and is dropped when no channel is bound to that
tab: the dispatch result is a function of the ports table and the sender
tab alone, never of `activeTab`. -/
theorem relay_routes_by_origin_tab (tabPorts : List (Nat × Nat))
    (activeTab senderTab : Option Nat) (m : RawMsg)
    (hobj : m.isObject = true)
    (hty : m.ty = some "ELEMENT_HOVERED" ∨ m.ty = some "ELEMENT_CLICKED" ∨
           m.ty = some "NEW_TEXT_BLOCKS" ∨ m.ty = some "TEXT_UPDATED") :
    relayOnMessage tabPorts activeTab senderTab m =
      .ok (match senderTab with
           | some s =>
             match lookupPort tabPorts s with
             | some p => [.postPort p m]
             | none => []
           | none => []) := by
  rcases hty with h | h | h | h <;> simp [relayOnMessage, hobj, h]

/-- Witness: the spec scenario — a channel (port 70) bound to tab 7, a
hover event originating from tab 7 arriving while tab 3 (whose own channel
is port 30) is focused — is delivered to tab 7's channel; with no binding
for tab 7 it is dropped. -/
theorem relay_routes_by_origin_tab_witness :
    relayOnMessage [(7, 70), (3, 30)] (some 3) (some 7)
      ⟨true, some "ELEMENT_HOVERED", true⟩ =
      .ok [.postPort 70 ⟨true, some "ELEMENT_HOVERED", true⟩] ∧
    relayOnMessage [(3, 30)] (some 3) (some 7)
      ⟨true, some "ELEMENT_HOVERED", true⟩ = .ok [] := by
  constructor
  · have h := relay_routes_by_origin_tab [(7, 70), (3, 30)] (some 3) (some 7)
      ⟨true, some "ELEMENT_HOVERED", true⟩ rfl (Or.inl rfl)
    rw [h]; rfl
  · have h := relay_routes_by_origin_tab [(3, 30)] (some 3) (some 7)
      ⟨true, some "ELEMENT_HOVERED", true⟩ rfl (Or.inl rfl)
    rw [h]; rfl

/-! ### C7 — relay message validation -/

/-- C7 (counterexample): the relay performs no validation against the
closed message set before dispatch.  An object message with the known tag
`TEXT_UPDATED` but an otherwise invalid shape — so not a member of the
closed set — is not rejected: with a channel bound to the sender tab the
relay forwards it.  A non-object message (`null`) makes the listener body
throw on the `message.type` access rather than being dropped. -/
theorem relay_no_shape_validation_counterexample :
    isValidMessageShape ⟨true, some "TEXT_UPDATED", false⟩ = false ∧
    relayOnMessage [(7, 70)] (some 7) (some 7)
      ⟨true, some "TEXT_UPDATED", false⟩ =
      .ok [.postPort 70 ⟨true, some "TEXT_UPDATED", false⟩] ∧
    relayOnMessage [(7, 70)] (some 7) (some 7) ⟨false, none, false⟩ =
      .error () := by
  refine ⟨by decide, by rfl, by rfl⟩

/-- C7 (amended): the relay dispatches on the message's type tag alone.
An object message whose type tag is not among the tags the relay handles is
dropped without being processed (no delivery) and without a crash; no
validation of the full message shape against the closed set happens before
dispatch, and a non-object message makes the listener throw. -/
theorem relay_unknown_type_dropped (tabPorts : List (Nat × Nat))
    (activeTab senderTab : Option Nat) (m : RawMsg)
    (hobj : m.isObject = true)
    (hty : ∀ t, m.ty = some t → t ∉ relayHandledTypes) :
    relayOnMessage tabPorts activeTab senderTab m = .ok [] := by
  have hne : ∀ t : String, t ∈ relayHandledTypes → m.ty ≠ some t := by
    intro t ht h
    exact hty t h ht
  have h1 : ¬ (m.ty = some "EXTRACT_TEXT") := hne _ (by decide)
  have h2 : ¬ (m.ty = some "ELEMENT_HOVERED" ∨ m.ty = some "ELEMENT_CLICKED" ∨
      m.ty = some "NEW_TEXT_BLOCKS" ∨ m.ty = some "TEXT_UPDATED") := by
    push_neg
    exact ⟨hne _ (by decide), hne _ (by decide), hne _ (by decide),
      hne _ (by decide)⟩
  have h3 : ¬ (m.ty = some "HIGHLIGHT_ELEMENT" ∨ m.ty = some "UNHIGHLIGHT_ELEMENT" ∨
      m.ty = some "SCROLL_TO_ELEMENT" ∨ m.ty = some "SET_MODE") := by
    push_neg
    exact ⟨hne _ (by decide), hne _ (by decide), hne _ (by decide),
      hne _ (by decide)⟩
  have h4 : ¬ (m.ty = some "PAGE_TEXT") := hne _ (by decide)
  simp only [relayOnMessage, hobj, Bool.not_true, Bool.false_eq_true,
    if_false, if_neg h1, if_neg h2, if_neg h3, if_neg h4]

/-- Witness: a well-formed `MODE_CHANGED` message (in the closed set but
not handled by the relay) and a bogus tag are both dropped with no
delivery. -/
theorem relay_unknown_type_dropped_witness :
    relayOnMessage [(7, 70)] (some 7) (some 7)
      ⟨true, some "BOGUS_EVENT", false⟩ = .ok [] ∧
    relayOnMessage [(7, 70)] (some 7) (some 7)
      ⟨true, some "MODE_CHANGED", true⟩ = .ok [] := by
  constructor
  · exact relay_unknown_type_dropped [(7, 70)] (some 7) (some 7) _ rfl
      (by intro t h; cases h; decide)
  · exact relay_unknown_type_dropped [(7, 70)] (some 7) (some 7) _ rfl
      (by intro t h; cases h; decide)

/-! ### C6 — hover debouncing -/

theorem hoverInv_initial : hoverInv initialHoverState := Or.inr ⟨rfl, rfl⟩

theorem hoverRun_append (mode : Bool) (s : HoverState)
    (l1 l2 : List HoverEvent) :
    hoverRun mode s (l1 ++ l2) =
      ((hoverRun mode (hoverRun mode s l1).1 l2).1,
       (hoverRun mode s l1).2 ++ (hoverRun mode (hoverRun mode s l1).1 l2).2) := by
  induction l1 generalizing s with
  | nil => simp [hoverRun]
  | cons e es ih => simp [hoverRun, ih, List.append_assoc]

theorem hoverStep_no_fire (s : HoverState) (e : HoverEvent)
    (he : e ≠ HoverEvent.fire) (hJ : hoverInv s) :
    hoverInv (hoverStep true s e).1 ∧
    ∀ m ∈ (hoverStep true s e).2, m = HoverMsg.elementHovered none := by
  cases e with
  | over id =>
    by_cases h : id = s.currentHighlightId
    · simp [hoverStep, h, hJ]
    · simp only [hoverStep, Bool.not_true, Bool.false_eq_true, if_false,
        if_neg h]
      exact ⟨Or.inl rfl, by simp⟩
  | out found stillInside =>
    cases found with
    | false => simp [hoverStep, hJ]
    | true =>
      cases stillInside with
      | false =>
        refine ⟨Or.inr ⟨rfl, rfl⟩, ?_⟩
        intro m hm
        simpa [hoverStep] using hm
      | true => simp [hoverStep, hJ]
  | fire => exact absurd rfl he

theorem hoverRun_no_fire (es : List HoverEvent) :
    ∀ s : HoverState, (∀ e ∈ es, e ≠ HoverEvent.fire) → hoverInv s →
    hoverInv (hoverRun true s es).1 ∧
    ∀ m ∈ (hoverRun true s es).2, m = HoverMsg.elementHovered none := by
  induction es with
  | nil => intro s _ hJ; exact ⟨hJ, by simp [hoverRun]⟩
  | cons e es ih =>
    intro s hf hJ
    have hstep := hoverStep_no_fire s e (hf e (by simp)) hJ
    have hrest := ih (hoverStep true s e).1
      (fun x hx => hf x (by simp [hx])) hstep.1
    refine ⟨?_, ?_⟩
    · simpa [hoverRun] using hrest.1
    · intro m hm
      simp only [hoverRun, List.mem_append] at hm
      rcases hm with hm | hm
      · exact hstep.2 m hm
      · exact hrest.2 m hm

theorem hoverStep_over_current (s : HoverState) (id : Option String) :
    ((hoverStep true s (.over id)).1).currentHighlightId = id := by
  by_cases h : id = s.currentHighlightId
  · simp [hoverStep, h]
  · simp [hoverStep, h]

/-- C6: hovering any fire-free sequence of blocks and settling on the last
one (the debounce timer fires only after the final move) emits exactly one
identifier-carrying `ELEMENT_HOVERED` notification, and it carries the
settled block's identifier — never an intermediate one; and a pointer-leave
whose target has an identified ancestor and whose `relatedTarget` is not
still contained in it immediately (within the same step, with no timer)
emits `ELEMENT_HOVERED: none`, clears the pending timer and clears the
local highlight. -/
theorem hover_debounce_spec (es : List HoverEvent) (c : String)
    (hf : ∀ e ∈ es, e ≠ HoverEvent.fire) :
    ((hoverRun true initialHoverState
        ((es ++ [HoverEvent.over (some c)]) ++ [HoverEvent.fire])).2.filter
      carriesId) = [HoverMsg.elementHovered (some c)] ∧
    ∀ s, hoverStep true s (.out true false) =
      (⟨none, none, none⟩, [HoverMsg.elementHovered none]) := by
  constructor
  · have hrun := hoverRun_no_fire (es ++ [HoverEvent.over (some c)])
      initialHoverState
      (by intro e he
          rcases List.mem_append.mp he with h | h
          · exact hf e h
          · simp only [List.mem_singleton] at h; simp [h])
      hoverInv_initial
    set s1 := (hoverRun true initialHoverState (es ++ [HoverEvent.over (some c)])).1
      with hs1
    have hcur : s1.currentHighlightId = some c := by
      rw [hs1, hoverRun_append]
      simpa [hoverRun] using
        hoverStep_over_current (hoverRun true initialHoverState es).1 (some c)
    have htimer : s1.timer = some (some c) := by
      rcases hrun.1 with h | h
      · rw [h, hcur]
      · rw [hcur] at h; exact absurd h.2 (by simp)
    rw [hoverRun_append]
    rw [List.filter_append]
    have h1 : ((hoverRun true initialHoverState
        (es ++ [HoverEvent.over (some c)])).2.filter carriesId) = [] := by
      rw [List.filter_eq_nil_iff]
      intro a ha
      rw [hrun.2 a ha]
      simp [carriesId]
    rw [h1]
    have h2 : hoverRun true s1 [HoverEvent.fire] =
        ({ s1 with timer := none }, [HoverMsg.elementHovered (some c)]) := by
      simp [hoverRun, hoverStep, htimer]
    rw [h2]
    simp [carriesId]
  · intro s
    simp [hoverStep]

/-- Witness: hovering a, then leaving, then hovering b, then c, then the
timer fires: the only identifier-carrying notification is for c; and the
pointer-leave step from a highlighted state emits none immediately. -/
theorem hover_debounce_spec_witness :
    ((hoverRun true initialHoverState
        (([HoverEvent.over (some "a"), HoverEvent.out true false,
           HoverEvent.over (some "b")] ++ [HoverEvent.over (some "c")]) ++
          [HoverEvent.fire])).2.filter carriesId) =
      [HoverMsg.elementHovered (some "c")] ∧
    ∀ s, hoverStep true s (.out true false) =
      (⟨none, none, none⟩, [HoverMsg.elementHovered none]) :=
  hover_debounce_spec
    [HoverEvent.over (some "a"), HoverEvent.out true false,
     HoverEvent.over (some "b")] "c" (by decide)

end SidebarTranslator

namespace SidebarTranslator

/-! ### C3 — character-data mutations -/

/-- C3 (counterexample): a character-data mutation on a text node whose
immediate parent element carries no identifier while its grandparent does
(the nearest identified ancestor is `st-x` and the new trimmed text
"Hello world" is non-empty) records nothing: no pending update is created
and no subtree is queued for resegmentation, contrary to the claim. -/
theorem charData_nearest_ancestor_counterexample :
    nearestIdentifiedAncestor ⟨none, "Hello world", [some "st-x"]⟩ =
      some "st-x" ∧
    observeRecord initialPending
        (.charData (some ⟨none, "Hello world", [some "st-x"]⟩)) =
      initialPending := by
  constructor
  · rfl
  · rfl

/-- C3 (amended): the character-data branch inspects only the mutated
node's immediate parent element.  When that parent carries an identifier
and its new trimmed text is non-empty, the pending update `(id, text)` is
recorded, coalescing by identifier within the debounce window (a later
update for the same identifier replaces the earlier text); when the parent
carries no identifier, the mutation is ignored — no pending update is
recorded and no subtree resegmentation is queued by this branch. -/
theorem charData_immediate_parent_spec :
    (∀ (st : PendingState) (p : CharDataParent) (id : String),
      p.stId = some id → p.trimmedText ≠ "" →
      observeRecord st (.charData (some p)) =
        { st with pendingUpdated := mapSet st.pendingUpdated id p.trimmedText }) ∧
    (∀ (st : PendingState) (p : CharDataParent),
      p.stId = none → observeRecord st (.charData (some p)) = st) ∧
    (∀ (m : List (String × String)) (k v w : String),
      mapSet (mapSet m k v) k w = mapSet m k w) := by
  refine ⟨?_, ?_, ?_⟩
  · intro st p id hid hne
    simp [observeRecord, hid, hne]
  · intro st p hid
    simp [observeRecord, hid]
  · intro m k v w
    induction m with
    | nil => simp [mapSet]
    | cons e rest ih =>
      by_cases h : e.1 = k
      · simp [mapSet, h]
      · simp [mapSet, h, ih]

/-- Witness: an identified parent records and coalesces its updates; an
unidentified parent records nothing. -/
theorem charData_immediate_parent_spec_witness :
    observeRecord ⟨[], []⟩ (.charData (some ⟨some "st-y", "Hi there", []⟩)) =
      ⟨[], [("st-y", "Hi there")]⟩ ∧
    observeRecord ⟨[], [("st-y", "Hi there")]⟩
        (.charData (some ⟨some "st-y", "Bye now", []⟩)) =
      ⟨[], [("st-y", "Bye now")]⟩ ∧
    observeRecord ⟨[], []⟩ (.charData (some ⟨none, "Hi there", []⟩)) =
      ⟨[], []⟩ := by
  refine ⟨?_, ?_, ?_⟩
  · rw [charData_immediate_parent_spec.1 ⟨[], []⟩
      ⟨some "st-y", "Hi there", []⟩ "st-y" rfl (by decide)]
    rfl
  · rw [charData_immediate_parent_spec.1 ⟨[], [("st-y", "Hi there")]⟩
      ⟨some "st-y", "Bye now", []⟩ "st-y" rfl (by decide)]
    rfl
  · rw [charData_immediate_parent_spec.2.1 ⟨[], []⟩
      ⟨none, "Hi there", []⟩ rfl]

end SidebarTranslator

namespace SidebarTranslator

/-! ### C4 and C10 — the debounce flush -/

theorem foldl_push_map {α β : Type} (f : α → β) (l : List α) (init : List β) :
    l.foldl (fun acc e => acc ++ [f e]) init = init ++ l.map f := by
  induction l generalizing init with
  | nil => simp
  | cons e es ih => simp [ih]

/-- Decomposition of a flush: one `NEW_TEXT_BLOCKS` message built from the
partial re-extraction of the pending subtrees (omitted when no blocks came
out), followed by one `TEXT_UPDATED` message per pending update entry in
order; both pending sets are cleared. -/
theorem flush_msgs_decomposition (doc : DomNode) (counts : List (String × Nat))
    (st : PendingState) :
    (flush doc counts st).msgs =
      (if (flushExtract doc counts st.pendingAdded).1 = [] then []
       else [ContentMsg.newTextBlocks (flushExtract doc counts st.pendingAdded).1]) ++
      st.pendingUpdated.map (fun e => ContentMsg.textUpdated e.1 e.2) ∧
    (flush doc counts st).pending = initialPending := by
  refine ⟨?_, rfl⟩
  obtain ⟨st, stu⟩ := st
  simp only [flush, foldl_push_map, List.nil_append]
  rcases hadd : st with _ | ⟨r, rs⟩
  · rcases hupd : stu with _ | ⟨u, us⟩ <;> simp [flushExtract]
  · simp only [List.length_cons, gt_iff_lt, Nat.succ_pos, if_pos]
    rcases hblocks : (flushExtract doc counts (r :: rs)).1 with _ | ⟨b, bs⟩ <;>
      rcases hupd : stu with _ | ⟨u, us⟩ <;> simp

end SidebarTranslator

namespace SidebarTranslator

/-- C4 (counterexample): flush applies no "identifiers not seen before"
filter.  With a pending subtree whose paragraph already carries the
identifier `st-abc` assigned by an earlier pass (so the identifier is
present in the pre-flush document and was already reported), the flush
emits a `NEW_TEXT_BLOCKS` event that contains that very identifier
again. -/
theorem flush_reemits_seen_id_counterexample :
    getStId [0] exDocIded = some "st-abc" ∧
    (flush exDocIded [] ⟨[[0]], []⟩).msgs =
      [ContentMsg.newTextBlocks [⟨"st-abc", "Hello world", "other"⟩]] := by
  exact ⟨rfl, rfl⟩

/-- C4 (amended): on every debounce flush the pending subtrees are
re-segmented first and all blocks extracted from them — existing
identifiers preserved, with no filtering of previously seen identifiers —
are emitted as one single `NEW_TEXT_BLOCKS` event before any
`TEXT_UPDATED` event; one `TEXT_UPDATED` event is emitted per pending
update entry, in order; each of the two emissions is skipped entirely when
its contribution is empty; and both pending sets are cleared. -/
theorem flush_order_spec (doc : DomNode) (counts : List (String × Nat))
    (st : PendingState) :
    (flush doc counts st).msgs =
      (if (flushExtract doc counts st.pendingAdded).1 = [] then []
       else [ContentMsg.newTextBlocks
         (flushExtract doc counts st.pendingAdded).1]) ++
      st.pendingUpdated.map (fun e => ContentMsg.textUpdated e.1 e.2) ∧
    (flush doc counts st).pending = initialPending :=
  flush_msgs_decomposition doc counts st

/-! ### C10 — no empty text updates -/

/-- Processing any added-node list never touches `pendingUpdated`. -/
theorem observeAdded_pendingUpdated (st : PendingState)
    (added : List AddedNode) :
    (observeAdded st added).pendingUpdated = st.pendingUpdated := by
  induction added generalizing st with
  | nil => rfl
  | cons a rest ih =>
    cases a with
    | element path htmlId =>
      by_cases h : htmlId = some "st-styles" <;> simp [observeAdded, h, ih]
    | textNode nonEmpty parentPath =>
      cases nonEmpty with
      | false => simp [observeAdded, ih]
      | true => cases parentPath <;> simp [observeAdded, ih]

/-- `mapSet` preserves "every value satisfies P" when the new value does. -/
theorem mapSet_forall {P : String → Prop} (m : List (String × String))
    (k v : String) (hv : P v) (hm : ∀ e ∈ m, P e.2) :
    ∀ e ∈ mapSet m k v, P e.2 := by
  induction m with
  | nil => simpa [mapSet] using hv
  | cons e rest ih =>
    by_cases h : e.1 = k
    · intro x hx
      simp only [mapSet, if_pos h] at hx
      rcases List.mem_cons.mp hx with hx | hx
      · subst hx; exact hv
      · exact hm x (List.mem_cons_of_mem e hx)
    · intro x hx
      simp only [mapSet, if_neg h] at hx
      rcases List.mem_cons.mp hx with hx | hx
      · subst hx; exact hm e (List.mem_cons_self e rest)
      · exact ih (fun y hy => hm y (List.mem_cons_of_mem e hy)) x hx

/-- Every pending update recorded by the observer has non-empty text. -/
theorem observeRecords_nonempty (records : List MutRecord) :
    ∀ st : PendingState, (∀ e ∈ st.pendingUpdated, e.2 ≠ "") →
    ∀ e ∈ (observeRecords st records).pendingUpdated, e.2 ≠ "" := by
  induction records with
  | nil => intro st h; exact h
  | cons r rs ih =>
    intro st h
    refine ih (observeRecord st r) ?_
    cases r with
    | attributes attrName =>
      by_cases ha : attrName = "data-st-id" <;> simpa [observeRecord, ha] using h
    | childList added =>
      intro e he
      rw [show observeRecord st (.childList added) = observeAdded st added
        from rfl, observeAdded_pendingUpdated] at he
      exact h e he
    | charData parent =>
      rcases parent with _ | p
      · exact h
      · rcases hid : p.stId with _ | id
        · simpa [observeRecord, hid] using h
        · by_cases ht : p.trimmedText ≠ ""
          · simp only [observeRecord, hid, if_pos ht]
            exact mapSet_forall (P := fun x => x ≠ "")
              st.pendingUpdated id p.trimmedText ht h
          · simpa [observeRecord, hid, ht] using h

/-- C10: a `TEXT_UPDATED` event never carries empty text.  A character-data
mutation that leaves the identified parent's trimmed text empty records no
pending update (the pending state is unchanged, so nothing is emitted for
it), and on any flush of a pending state reached from the armed (empty)
state every `TEXT_UPDATED` message carries non-empty text. -/
theorem textUpdated_nonempty_spec (records : List MutRecord) (doc : DomNode)
    (counts : List (String × Nat)) (id : String)
    (anc : List (Option String)) :
    observeRecord initialPending (.charData (some ⟨some id, "", anc⟩)) =
      initialPending ∧
    (∀ st : PendingState, observeRecord st (.charData (some ⟨some id, "", anc⟩)) = st) ∧
    ∀ i t, ContentMsg.textUpdated i t ∈
      (flush doc counts (observeRecords initialPending records)).msgs → t ≠ "" := by
  refine ⟨by simp [observeRecord], fun st => by simp [observeRecord], ?_⟩
  intro i t hmem
  have hdec := flush_msgs_decomposition doc counts
    (observeRecords initialPending records)
  rw [hdec.1] at hmem
  rcases List.mem_append.mp hmem with hmem | hmem
  · by_cases h : (flushExtract doc counts
        (observeRecords initialPending records).pendingAdded).1 = []
    · rw [if_pos h] at hmem; cases hmem
    · rw [if_neg h] at hmem
      simp only [List.mem_singleton] at hmem
      cases hmem
  · rcases List.mem_map.mp hmem with ⟨e, he, heq⟩
    have hne := observeRecords_nonempty records initialPending
      (by intro x hx; cases hx) e he
    have : t = e.2 := by cases heq; rfl
    rw [this]
    exact hne

/-- Witness: after a non-empty update for `st-y` and an empty-text mutation
for `st-z`, the flush emits exactly the one non-empty update. -/
theorem textUpdated_nonempty_spec_witness :
    observeRecord initialPending
      (.charData (some ⟨some "st-z", "", [none]⟩)) = initialPending ∧
    (∀ st : PendingState,
      observeRecord st (.charData (some ⟨some "st-z", "", [none]⟩)) = st) ∧
    ∀ i t, ContentMsg.textUpdated i t ∈
      (flush (.elem exBody []) []
        (observeRecords initialPending
          [.charData (some ⟨some "st-y", "Hi there", []⟩),
           .charData (some ⟨some "st-z", "", [none]⟩)])).msgs → t ≠ "" :=
  textUpdated_nonempty_spec
    [.charData (some ⟨some "st-y", "Hi there", []⟩),
     .charData (some ⟨some "st-z", "", [none]⟩)]
    (.elem exBody []) [] "st-z" [none]

end SidebarTranslator

namespace SidebarTranslator

/-! ### C2 — determinism of consecutive full passes -/

mutual

theorem stripIds_stripIds : ∀ t : DomNode, stripIds (stripIds t) = stripIds t
  | .elem d cs => by
    simp only [stripIds, stripIdsList_stripIdsList cs]
  | .text s => rfl

theorem stripIdsList_stripIdsList :
    ∀ cs : List DomNode, stripIdsList (stripIdsList cs) = stripIdsList cs
  | [] => rfl
  | c :: cs => by
    simp only [stripIdsList, stripIds_stripIds c, stripIdsList_stripIdsList cs]

end

theorem stripIdsList_listModify (f : DomNode → DomNode)
    (hf : ∀ x, stripIds (f x) = stripIds x) :
    ∀ (cs : List DomNode) (i : Nat),
      stripIdsList (listModify cs i f) = stripIdsList cs
  | [], _ => rfl
  | c :: cs, 0 => by simp only [listModify, stripIdsList, hf c]
  | c :: cs, n + 1 => by
    simp only [listModify, stripIdsList, stripIdsList_listModify f hf cs n]

theorem stripIds_setStId (v : String) :
    ∀ (p : List Nat) (t : DomNode), stripIds (setStId v p t) = stripIds t
  | [], .elem _ _ => rfl
  | [], .text _ => rfl
  | i :: p, .elem d cs => by
    simp only [setStId, stripIds]
    rw [stripIdsList_listModify (setStId v p) (fun x => stripIds_setStId v p x) cs i]
  | _ :: _, .text _ => rfl

theorem stripIds_applyWrites (ws : List (List Nat × String)) :
    ∀ t : DomNode, stripIds (applyWrites ws t) = stripIds t := by
  induction ws with
  | nil => intro t; rfl
  | cons w ws ih =>
    intro t
    show stripIds (applyWrites ws (setStId w.2 w.1 t)) = stripIds t
    rw [ih, stripIds_setStId]

theorem extractFull_doc_strip (doc : DomNode) :
    stripIds ((extractFull doc).doc) = stripIds doc := by
  cases h : stripIds doc with
  | text s =>
    simp only [extractFull, h]
    rfl
  | elem d cs =>
    simp only [extractFull, h]
    rw [stripIds_applyWrites, ← h, stripIds_stripIds]

theorem extractFull_congr (a b : DomNode) (h : stripIds a = stripIds b) :
    (extractFull a).blocks = (extractFull b).blocks := by
  unfold extractFull
  rw [h]

/-- C2: a second full-pass segmentation of the document left as the first
full pass left it (unchanged except for the identifier attributes that pass
wrote) returns the same sequence of (id, text, section) blocks in the same
order: stripping and re-walking is a function of the identifier-free
document alone. -/
theorem extractFull_deterministic (doc : DomNode) :
    (extractFull ((extractFull doc).doc)).blocks = (extractFull doc).blocks :=
  extractFull_congr _ _ (extractFull_doc_strip doc)

end SidebarTranslator

namespace SidebarTranslator

/-! ### C9 — every block is meaningful text -/

theorem isMeaningfulText_true (t : String) (h : isMeaningfulText t = true) :
    2 ≤ t.length ∧ t.data.any meaningfulChar = true := by
  unfold isMeaningfulText at h
  by_cases hl : t.length < 2
  · rw [if_pos hl] at h; cases h
  · rw [if_neg hl] at h
    exact ⟨Nat.le_of_not_lt hl, h⟩

theorem buildBlocks_meaningful (bodyD : ElemData) :
    ∀ (m : List (BlockRef × List String)) (st : AssignState) (b : TextBlock),
      b ∈ (buildBlocks bodyD st m).1 → isMeaningfulText b.text = true := by
  intro m
  induction m with
  | nil => intro st b hb; cases hb
  | cons e rest ih =>
    intro st b hb
    obtain ⟨ref, texts⟩ := e
    by_cases hmt : isMeaningfulText (jsTrim (String.intercalate " " texts)) = true
    · simp only [buildBlocks, hmt, Bool.not_true, Bool.false_eq_true, if_false] at hb
      rcases List.mem_cons.mp hb with hb | hb
      · rw [hb]
        exact hmt
      · exact ih _ b hb
    · simp only [buildBlocks, Bool.not_eq_true] at hb
      rw [Bool.not_eq_true] at hmt
      rw [if_pos] at hb
      · exact ih _ b hb
      · rw [hmt]; rfl
  
theorem segmentWalk_meaningful (bodyD : ElemData)
    (leaves : List (AncPath × String)) (counts : List (String × Nat))
    (b : TextBlock) (hb : b ∈ (segmentWalk bodyD leaves counts).1) :
    isMeaningfulText b.text = true := by
  unfold segmentWalk at hb
  exact buildBlocks_meaningful bodyD _ _ b hb

theorem leafEntry_some_spec (bodyD : ElemData) (anc : AncPath) (s : String)
    (r : BlockRef) (t : String) (h : leafEntry bodyD anc s = some (r, t)) :
    t = jsTrim s ∧ isMeaningfulText t = true ∧ r = blockParentOf anc := by
  unfold leafEntry at h
  split_ifs at h with h1 h2 h3 h4 h5
  rw [Option.some.injEq, Prod.mk.injEq] at h
  obtain ⟨hr, ht⟩ := h
  refine ⟨ht.symm, ?_, hr.symm⟩
  rw [ht] at h3
  rw [Bool.not_eq_true] at h3
  simpa using h3

/-- C9: every block returned by segmentation — full or partial pass — has
text at least 2 characters long containing at least one character from the
tested Latin, extended-Latin, CJK, kana or Hangul letter/digit ranges; and
the walker filter never retains a text leaf whose trimmed content fails
that test (in particular a single-character leaf is never extracted into a
block: its entry is rejected before grouping). -/
theorem extract_blocks_meaningful (doc : DomNode)
    (counts : List (String × Nat)) (rootPath : List Nat) :
    (∀ b ∈ (extractTextBlocks doc counts rootPath).blocks,
      2 ≤ b.text.length ∧ b.text.data.any meaningfulChar = true) ∧
    (∀ (bodyD : ElemData) (anc : AncPath) (s : String) (r : BlockRef)
        (t : String), leafEntry bodyD anc s = some (r, t) →
      2 ≤ t.length ∧ t.data.any meaningfulChar = true ∧ t = jsTrim s) := by
  constructor
  · intro b hb
    apply isMeaningfulText_true
    unfold extractTextBlocks at hb
    by_cases hr : rootPath = []
    · rw [if_pos hr] at hb
      unfold extractFull at hb
      cases hstrip : stripIds doc with
      | text s =>
        rw [hstrip] at hb
        simp at hb
      | elem d cs =>
        rw [hstrip] at hb
        exact segmentWalk_meaningful d _ _ b hb
    · rw [if_neg hr] at hb
      unfold extractPartial at hb
      cases hdoc : doc with
      | text s =>
        rw [hdoc] at hb
        simp at hb
      | elem bodyD kids =>
        rw [hdoc] at hb
        cases hnode : nodeAt [] rootPath [] (DomNode.elem bodyD kids) with
        | none =>
          rw [hnode] at hb
          simp at hb
        | some pr =>
          rw [hnode] at hb
          exact segmentWalk_meaningful bodyD _ _ b hb
  · intro bodyD anc s r t h
    obtain ⟨ht, hm, _⟩ := leafEntry_some_spec bodyD anc s r t h
    obtain ⟨h1, h2⟩ := isMeaningfulText_true t hm
    exact ⟨h1, h2, ht⟩

/-- Witness: the full pass over the scenario document yields blocks whose
texts are all meaningful, and the walker filter on a plain paragraph leaf
retains "Hello world" trimmed; a single-character leaf "A" is rejected. -/
theorem extract_blocks_meaningful_witness :
    (∀ b ∈ (extractTextBlocks exDocMenu [] []).blocks,
      2 ≤ b.text.length ∧ b.text.data.any meaningfulChar = true) ∧
    (2 ≤ ("Hello world" : String).length ∧
      ("Hello world" : String).data.any meaningfulChar = true ∧
      ("Hello world" : String) = jsTrim " Hello world ") ∧
    leafEntry exBody [([0], exP)] "A" = none := by
  refine ⟨(extract_blocks_meaningful exDocMenu [] []).1, ?_, by rfl⟩
  exact (extract_blocks_meaningful exDocMenu [] []).2 exBody [([0], exP)]
    " Hello world " (blockParentOf [([0], exP)]) "Hello world" (by rfl)

end SidebarTranslator

namespace SidebarTranslator

/-! ### C1 — identifier assignment in a full pass -/

theorem lookupCount_setCount_self (m : List (String × Nat)) (h : String)
    (n : Nat) : lookupCount (setCount m h n) h = some n := by
  induction m with
  | nil => simp [setCount, lookupCount]
  | cons e rest ih =>
    by_cases he : e.1 = h
    · simp [setCount, lookupCount, he]
    · simp [setCount, lookupCount, he, ih]

theorem lookupCount_setCount_ne (m : List (String × Nat)) (h h' : String)
    (n : Nat) (hne : h' ≠ h) :
    lookupCount (setCount m h n) h' = lookupCount m h' := by
  have hne' : ¬(h = h') := fun g => hne g.symm
  induction m with
  | nil => simp [setCount, lookupCount, hne']
  | cons e rest ih =>
    by_cases he : e.1 = h
    · subst he
      simp [setCount, lookupCount, hne', ih]
    · by_cases he' : e.1 = h'
      · simp [setCount, lookupCount, he, he', hne]
      · simp [setCount, lookupCount, he, he', ih]

theorem hashOccurrences_nil (h : String) : hashOccurrences [] h = 0 := rfl

theorem hashOccurrences_append_one (l : List String) (t h : String) :
    hashOccurrences (l ++ [t]) h =
      hashOccurrences l h + (if textHash t = h then 1 else 0) := by
  unfold hashOccurrences
  rw [List.filter_append, List.length_append]
  by_cases ht : textHash t = h
  · simp [ht]
  · simp [ht]

theorem lookupWrite_append (ws ws' : List (List Nat × String)) (q : List Nat) :
    lookupWrite (ws ++ ws') q =
      (lookupWrite ws q).orElse (fun _ => lookupWrite ws' q) := by
  induction ws with
  | nil => simp [lookupWrite]
  | cons w rest ih =>
    by_cases hw : w.1 = q
    · simp [lookupWrite, hw]
    · simp [lookupWrite, hw, ih]

mutual

theorem noIds_stripIds : ∀ t : DomNode, noIds (stripIds t) = true
  | .elem d cs => by
    simp only [stripIds, noIds, noIdsList_stripIdsList cs, Bool.and_true]
    rfl
  | .text _ => rfl

theorem noIdsList_stripIdsList :
    ∀ cs : List DomNode, noIdsList (stripIdsList cs) = true
  | [] => rfl
  | c :: cs => by
    simp only [stripIdsList, noIdsList, noIds_stripIds c,
      noIdsList_stripIdsList cs, Bool.and_self]

end

end SidebarTranslator

namespace SidebarTranslator

mutual

theorem textLeaves_stId_none :
    ∀ (anc : AncPath) (path : List Nat) (t : DomNode),
      (∀ pe ∈ anc, pe.2.stId = none) → noIds t = true →
      ∀ e ∈ textLeaves anc path t, ∀ pe ∈ e.1, pe.2.stId = none
  | anc, path, .text s => by
    intro hanc _ e he
    simp only [textLeaves, List.mem_singleton] at he
    rw [he]
    exact hanc
  | anc, path, .elem d cs => by
    intro hanc ht e he
    simp only [noIds, Bool.and_eq_true, decide_eq_true_eq] at ht
    refine textLeavesList_stId_none ((path, d) :: anc) path 0 cs ?_ ht.2 e ?_
    · intro pe hpe
      rcases List.mem_cons.mp hpe with hpe | hpe
      · rw [hpe]; exact ht.1
      · exact hanc pe hpe
    · simpa [textLeaves] using he

theorem textLeavesList_stId_none :
    ∀ (anc : AncPath) (path : List Nat) (i : Nat) (cs : List DomNode),
      (∀ pe ∈ anc, pe.2.stId = none) → noIdsList cs = true →
      ∀ e ∈ textLeavesList anc path i cs, ∀ pe ∈ e.1, pe.2.stId = none
  | anc, path, i, [] => by
    intro _ _ e he
    cases he
  | anc, path, i, c :: cs => by
    intro hanc hcs e he
    simp only [noIdsList, Bool.and_eq_true] at hcs
    simp only [textLeavesList, List.mem_append] at he
    rcases he with he | he
    · exact textLeaves_stId_none anc (path ++ [i]) c hanc hcs.1 e he
    · exact textLeavesList_stId_none anc path (i + 1) cs hanc hcs.2 e he

end

theorem findBlockParent_mem :
    ∀ (anc : AncPath) (r : BlockRef), findBlockParent anc = some r →
      ∃ p d chain, r = BlockRef.el p d chain ∧ (p, d) ∈ anc := by
  intro anc
  induction anc with
  | nil => intro r hr; cases hr
  | cons pe rest ih =>
    intro r hr
    obtain ⟨p, d⟩ := pe
    unfold findBlockParent at hr
    by_cases h1 : BLOCK_LEVEL_TAGS.contains d.tag = true ∨ d.role = some "article"
    · rw [if_pos (by simpa using h1)] at hr
      rw [Option.some.injEq] at hr
      exact ⟨p, d, rest.map Prod.snd, hr.symm, List.mem_cons_self _ _⟩
    · rw [if_neg (by simpa using h1)] at hr
      cases hrest : rest with
      | nil =>
        rw [hrest] at hr
        cases hr
      | cons q qs =>
        obtain ⟨qp, qd⟩ := q
        rw [hrest] at hr
        simp only [] at hr
        by_cases h2 : qd.flexGrid = true
        · rw [if_pos h2, Option.some.injEq] at hr
          exact ⟨p, d, ((qp, qd) :: qs).map Prod.snd, hr.symm,
            List.mem_cons_self _ _⟩
        · rw [if_neg h2] at hr
          obtain ⟨p', d', chain', heq, hmem⟩ := ih r (by rw [hrest]; exact hr)
          exact ⟨p', d', chain', heq, List.mem_cons_of_mem _ (hrest ▸ hmem)⟩

theorem blockRefStId_blockParentOf (bodyD : ElemData) (anc : AncPath)
    (hanc : ∀ pe ∈ anc, pe.2.stId = none) (hbody : bodyD.stId = none) :
    blockRefStId bodyD (blockParentOf anc) = none := by
  unfold blockParentOf
  cases hf : findBlockParent anc with
  | some r =>
    obtain ⟨p, d, chain, heq, hmem⟩ := findBlockParent_mem anc r hf
    rw [heq]
    exact hanc (p, d) hmem
  | none =>
    cases anc with
    | nil => exact hbody
    | cons pe rest =>
      obtain ⟨p, d⟩ := pe
      exact hanc (p, d) (List.mem_cons_self _ _)

end SidebarTranslator

namespace SidebarTranslator

theorem insertLeaf_paths (m : List (BlockRef × List String)) (k : BlockRef)
    (t : String) :
    pathsOf (insertLeaf m k t) =
      if blockRefPath k ∈ pathsOf m then pathsOf m
      else pathsOf m ++ [blockRefPath k] := by
  induction m with
  | nil => simp [insertLeaf, pathsOf]
  | cons e rest ih =>
    by_cases hk : sameBlockRef e.1 k = true
    · have hp : blockRefPath e.1 = blockRefPath k := by
        simpa [sameBlockRef] using hk
      simp [insertLeaf, hk, pathsOf, hp]
    · have hp : ¬(blockRefPath k = blockRefPath e.1) := by
        intro g
        exact hk (by simp [sameBlockRef, g])
      simp only [insertLeaf, hk, Bool.false_eq_true, if_false]
      simp only [pathsOf, List.map_cons] at ih ⊢
      rw [ih]
      by_cases hmem : blockRefPath k ∈ rest.map (fun e => blockRefPath e.1)
      · simp [hmem, hp]
      · simp [hmem, hp]

theorem insertLeaf_nodup (m : List (BlockRef × List String)) (k : BlockRef)
    (t : String) (h : (pathsOf m).Nodup) :
    (pathsOf (insertLeaf m k t)).Nodup := by
  rw [insertLeaf_paths]
  by_cases hmem : blockRefPath k ∈ pathsOf m
  · simpa [hmem] using h
  · rw [if_neg hmem]
    exact List.Nodup.append h (List.nodup_singleton _)
      (by simpa [List.disjoint_singleton] using hmem)

theorem insertLeaf_pred (P : BlockRef → Prop)
    (m : List (BlockRef × List String)) (k : BlockRef) (t : String)
    (hm : ∀ e ∈ m, P e.1) (hk : P k) : ∀ e ∈ insertLeaf m k t, P e.1 := by
  induction m with
  | nil =>
    intro e he
    simp only [insertLeaf, List.mem_singleton] at he
    rw [he]
    exact hk
  | cons x rest ih =>
    intro e he
    by_cases hx : sameBlockRef x.1 k = true
    · simp only [insertLeaf, hx, if_pos] at he
      rcases List.mem_cons.mp he with he | he
      · rw [he]
        exact hm x (List.mem_cons_self _ _)
      · exact hm e (List.mem_cons_of_mem _ he)
    · simp only [insertLeaf, hx, Bool.false_eq_true, if_false] at he
      rcases List.mem_cons.mp he with he | he
      · rw [he]
        exact hm x (List.mem_cons_self _ _)
      · exact ih (fun y hy => hm y (List.mem_cons_of_mem _ hy)) e he

theorem foldl_insertLeaf_nodup (entries : List (BlockRef × String)) :
    ∀ m, (pathsOf m).Nodup →
      (pathsOf (entries.foldl (fun acc e => insertLeaf acc e.1 e.2) m)).Nodup := by
  induction entries with
  | nil => intro m hm; exact hm
  | cons e rest ih =>
    intro m hm
    exact ih _ (insertLeaf_nodup m e.1 e.2 hm)

theorem foldl_insertLeaf_pred (P : BlockRef → Prop)
    (entries : List (BlockRef × String)) (hent : ∀ e ∈ entries, P e.1) :
    ∀ m, (∀ e ∈ m, P e.1) →
      ∀ e ∈ entries.foldl (fun acc e => insertLeaf acc e.1 e.2) m, P e.1 := by
  induction entries with
  | nil => intro m hm; exact hm
  | cons x rest ih =>
    intro m hm
    exact ih (fun y hy => hent y (List.mem_cons_of_mem _ hy)) _
      (insertLeaf_pred P m x.1 x.2 hm (hent x (List.mem_cons_self _ _)))

end SidebarTranslator

namespace SidebarTranslator

theorem assignId_none (bodyD : ElemData) (st : AssignState) (ref : BlockRef)
    (t : String) (hw : lookupWrite st.writes (blockRefPath ref) = none)
    (hs : blockRefStId bodyD ref = none) :
    assignId bodyD st ref t =
      (mkStId (textHash t) ((lookupCount st.counts (textHash t)).getD 0),
       ⟨setCount st.counts (textHash t)
          (((lookupCount st.counts (textHash t)).getD 0) + 1),
        st.writes ++
          [(blockRefPath ref,
            mkStId (textHash t) ((lookupCount st.counts (textHash t)).getD 0))]⟩) := by
  unfold assignId
  rw [hw, hs]
  rfl

theorem buildBlocks_cons (bodyD : ElemData) (st : AssignState)
    (ref : BlockRef) (texts : List String)
    (rest : List (BlockRef × List String)) :
    buildBlocks bodyD st ((ref, texts) :: rest) =
      (if !isMeaningfulText (jsTrim (String.intercalate " " texts)) then
        buildBlocks bodyD st rest
       else
        (⟨(assignId bodyD st ref (jsTrim (String.intercalate " " texts))).1,
          jsTrim (String.intercalate " " texts), pageSectionOf bodyD ref⟩ ::
          (buildBlocks bodyD
            (assignId bodyD st ref
              (jsTrim (String.intercalate " " texts))).2 rest).1,
         (buildBlocks bodyD
           (assignId bodyD st ref
             (jsTrim (String.intercalate " " texts))).2 rest).2)) := rfl

theorem buildBlocks_id_spec (bodyD : ElemData) :
    ∀ (m : List (BlockRef × List String)) (counts : List (String × Nat))
      (writes : List (List Nat × String)) (processed : List String),
      (∀ h : String,
        (lookupCount counts h).getD 0 = hashOccurrences processed h) →
      (∀ e ∈ m, blockRefStId bodyD e.1 = none) →
      (pathsOf m).Nodup →
      (∀ e ∈ m, lookupWrite writes (blockRefPath e.1) = none) →
      ∀ (i : Nat) (b : TextBlock),
        (buildBlocks bodyD ⟨counts, writes⟩ m).1.get? i = some b →
        b.id = mkStId (textHash b.text)
          (hashOccurrences
            (processed ++
              (((buildBlocks bodyD ⟨counts, writes⟩ m).1.take i).map
                TextBlock.text))
            (textHash b.text)) := by
  intro m
  induction m with
  | nil =>
    intro counts writes processed _ _ _ _ i b hb
    simp [buildBlocks] at hb
  | cons x rest ih =>
    intro counts writes processed hcnt hnone hnodup hw i b hb
    obtain ⟨ref, texts⟩ := x
    by_cases hm : isMeaningfulText (jsTrim (String.intercalate " " texts)) = true
    · rw [buildBlocks_cons] at hb ⊢
      rw [if_neg (by simp [hm])] at hb ⊢
      have hx : blockRefStId bodyD ref = none :=
        hnone (ref, texts) (List.mem_cons_self _ _)
      have hwx : lookupWrite writes (blockRefPath ref) = none :=
        hw (ref, texts) (List.mem_cons_self _ _)
      have hassign := assignId_none bodyD ⟨counts, writes⟩ ref
        (jsTrim (String.intercalate " " texts)) hwx hx
      rw [hassign] at hb ⊢
      have hnodup' : (blockRefPath ref ∉ pathsOf rest) ∧ (pathsOf rest).Nodup := by
        have : pathsOf ((ref, texts) :: rest) =
            blockRefPath ref :: pathsOf rest := rfl
        rw [this] at hnodup
        exact List.nodup_cons.mp hnodup
      cases i with
      | zero =>
        simp only [List.get?_cons_zero, Option.some.injEq] at hb
        rw [← hb]
        simp only [List.take_zero, List.map_nil, List.append_nil]
        rw [hcnt (textHash (jsTrim (String.intercalate " " texts)))]
      | succ i' =>
        simp only [List.get?_cons_succ] at hb
        have hres := ih
          (setCount counts (textHash (jsTrim (String.intercalate " " texts)))
            (((lookupCount counts
              (textHash (jsTrim (String.intercalate " " texts)))).getD 0) + 1))
          (writes ++
            [(blockRefPath ref,
              mkStId (textHash (jsTrim (String.intercalate " " texts)))
                ((lookupCount counts
                  (textHash (jsTrim (String.intercalate " " texts)))).getD 0))])
          (processed ++ [jsTrim (String.intercalate " " texts)])
          ?hcnt ?hnone ?hnodup ?hw i' b hb
        case hcnt =>
          intro h
          by_cases hh : h = textHash (jsTrim (String.intercalate " " texts))
          · rw [hh, lookupCount_setCount_self, hashOccurrences_append_one,
              if_pos rfl,
              ← hcnt (textHash (jsTrim (String.intercalate " " texts)))]
            rfl
          · rw [lookupCount_setCount_ne _ _ _ _ hh,
              hashOccurrences_append_one,
              if_neg (fun g => hh g.symm), hcnt h]
            rfl
        case hnone =>
          exact fun e he => hnone e (List.mem_cons_of_mem _ he)
        case hnodup => exact hnodup'.2
        case hw =>
          intro e he
          rw [lookupWrite_append, hw e (List.mem_cons_of_mem _ he)]
          have hne : blockRefPath ref ≠ blockRefPath e.1 := by
            intro g
            exact hnodup'.1 (g ▸ List.mem_map_of_mem (fun y => blockRefPath y.1) he)
          simp [lookupWrite, hne]
        rw [hres]
        congr 1
        rw [List.take_succ_cons, List.map_cons]
        rw [List.append_cons, List.append_assoc]
        simp
    · rw [buildBlocks_cons] at hb ⊢
      rw [if_pos (by simp [Bool.not_eq_true] at hm ⊢; exact hm)] at hb ⊢
      exact ih counts writes processed hcnt
        (fun e he => hnone e (List.mem_cons_of_mem _ he))
        (by
          have : pathsOf ((ref, texts) :: rest) =
              blockRefPath ref :: pathsOf rest := rfl
          rw [this] at hnodup
          exact (List.nodup_cons.mp hnodup).2)
        (fun e he => hw e (List.mem_cons_of_mem _ he)) i b hb

end SidebarTranslator

namespace SidebarTranslator

/-- C1: in a full extraction pass the identifier of the block at position
`i` is "st-" followed by the base-36 rendering of the FNV-1a 32-bit hash of
its joined text, suffixed with "-k" when k earlier blocks of the same pass
share that hash (no suffix for the first): the per-hash occurrence counter
starts from zero at the start of the pass (the table is cleared) and counts
only blocks of this pass. -/
theorem extractFull_id_spec (doc : DomNode) (i : Nat) (b : TextBlock)
    (hb : (extractFull doc).blocks.get? i = some b) :
    b.id = mkStId (textHash b.text)
      (hashOccurrences
        (((extractFull doc).blocks.take i).map TextBlock.text)
        (textHash b.text)) := by
  cases doc with
  | text s =>
    simp [extractFull, stripIds] at hb
  | elem d0 cs0 =>
    simp only [extractFull, stripIds, segmentWalk] at hb ⊢
    have hnoIds : noIdsList (stripIdsList cs0) = true :=
      noIdsList_stripIdsList cs0
    have hPent : ∀ e ∈ (textLeavesList [] [] 0 (stripIdsList cs0)).filterMap
        (fun ls => leafEntry { d0 with stId := none } ls.1 ls.2),
        blockRefStId { d0 with stId := none } e.1 = none := by
      intro e he
      obtain ⟨ls, hls, hsome⟩ := List.mem_filterMap.mp he
      obtain ⟨_, _, hr⟩ := leafEntry_some_spec { d0 with stId := none }
        ls.1 ls.2 e.1 e.2 hsome
      rw [hr]
      exact blockRefStId_blockParentOf { d0 with stId := none } ls.1
        (textLeavesList_stId_none [] [] 0 (stripIdsList cs0)
          (by intro pe hpe; cases hpe) hnoIds ls hls)
        rfl
    have hPm := foldl_insertLeaf_pred
      (fun r => blockRefStId { d0 with stId := none } r = none) _ hPent []
      (by intro e he; cases he)
    have hno := foldl_insertLeaf_nodup
      ((textLeavesList [] [] 0 (stripIdsList cs0)).filterMap
        (fun ls => leafEntry { d0 with stId := none } ls.1 ls.2)) []
      List.nodup_nil
    exact buildBlocks_id_spec { d0 with stId := none } _ [] [] []
      (fun _ => rfl) hPm hno (fun _ _ => rfl) i b hb

/-- Witness: in the scenario document with blocks "Title", "Menu", "Menu"
the third block receives the suffixed identifier `st-7q5wa-1` predicted by
the formula. -/
theorem extractFull_id_spec_witness :
    (extractFull exDocMenu).blocks.get? 2 =
      some ⟨"st-7q5wa-1", "Menu", "other"⟩ ∧
    (("st-7q5wa-1" : String) =
      mkStId (textHash "Menu")
        (hashOccurrences
          (((extractFull exDocMenu).blocks.take 2).map TextBlock.text)
          (textHash "Menu"))) :=
  ⟨rfl, extractFull_id_spec exDocMenu 2 ⟨"st-7q5wa-1", "Menu", "other"⟩ rfl⟩

end SidebarTranslator
